import Mathlib

/-
Verification development for the crystal-functions repository.

Part I embeds the geometry code of CRYSTALpytools/geometry.py (get_scel,
get_pcel) over exact rationals: the Python code works on IEEE floats, which
we idealize as exact arithmetic; the 1e-10 tolerances of the spec are then
exact equalities.

Part II embeds the harmonic thermodynamics code of
crystal_functions/thermodynamics.py (class Mode, class Harmonic) over the
reals, since the statistical-mechanics formulas use exp and log.
-/

/-- A 3-vector of rationals (one cartesian or fractional coordinate). -/
structure Vec3 where
  x : ℚ
  y : ℚ
  z : ℚ
deriving DecidableEq

def vadd (a b : Vec3) : Vec3 := ⟨a.x + b.x, a.y + b.y, a.z + b.z⟩

def vsub (a b : Vec3) : Vec3 := ⟨a.x - b.x, a.y - b.y, a.z - b.z⟩

def vsmul (c : ℚ) (a : Vec3) : Vec3 := ⟨c * a.x, c * a.y, c * a.z⟩

/-- A 3x3 rational matrix given by rows, as numpy stores lattice matrices
(row i = lattice vector i). -/
structure Mat3 where
  r0 : Vec3
  r1 : Vec3
  r2 : Vec3
deriving DecidableEq

def dotV (a b : Vec3) : ℚ := a.x * b.x + a.y * b.y + a.z * b.z

def colX (m : Mat3) : Vec3 := ⟨m.r0.x, m.r1.x, m.r2.x⟩

def colY (m : Mat3) : Vec3 := ⟨m.r0.y, m.r1.y, m.r2.y⟩

def colZ (m : Mat3) : Vec3 := ⟨m.r0.z, m.r1.z, m.r2.z⟩

/-- Row vector times matrix, the numpy convention for coordinates:
cart = frac @ lattice. -/
def vecMulM (v : Vec3) (m : Mat3) : Vec3 :=
  ⟨dotV v (colX m), dotV v (colY m), dotV v (colZ m)⟩

/-- Matrix product a @ b (rows of a times b). -/
def matMulM (a b : Mat3) : Mat3 :=
  ⟨vecMulM a.r0 b, vecMulM a.r1 b, vecMulM a.r2 b⟩

def det3 (m : Mat3) : ℚ :=
  m.r0.x * (m.r1.y * m.r2.z - m.r1.z * m.r2.y)
    - m.r0.y * (m.r1.x * m.r2.z - m.r1.z * m.r2.x)
    + m.r0.z * (m.r1.x * m.r2.y - m.r1.y * m.r2.x)

/-- Cofactor inverse of a 3x3 matrix; models numpy.linalg.inv on the
invertible matrices the code feeds it. -/
def inv3 (m : Mat3) : Mat3 :=
  let d := det3 m
  ⟨⟨(m.r1.y * m.r2.z - m.r1.z * m.r2.y) / d,
    -(m.r0.y * m.r2.z - m.r0.z * m.r2.y) / d,
    (m.r0.y * m.r1.z - m.r0.z * m.r1.y) / d⟩,
   ⟨-(m.r1.x * m.r2.z - m.r1.z * m.r2.x) / d,
    (m.r0.x * m.r2.z - m.r0.z * m.r2.x) / d,
    -(m.r0.x * m.r1.z - m.r0.z * m.r1.x) / d⟩,
   ⟨(m.r1.x * m.r2.y - m.r1.y * m.r2.x) / d,
    -(m.r0.x * m.r2.y - m.r0.y * m.r2.x) / d,
    (m.r0.x * m.r1.y - m.r0.y * m.r1.x) / d⟩⟩

def diagM (a b c : ℚ) : Mat3 := ⟨⟨a, 0, 0⟩, ⟨0, b, 0⟩, ⟨0, 0, c⟩⟩

/-- A pymatgen Structure: lattice matrix, number of periodic dimensions
(the code only ever uses struc.pbc through struc.pbc.count(True), with the
periodic dimensions first), and the sites as (atomic number, fractional
coordinate) pairs, the internal representation of pymatgen sites. -/
structure PmgStructure where
  lattice : Mat3
  ndimen : ℕ
  sites : List (ℕ × Vec3)
deriving DecidableEq

/-- Cartesian coordinates of the sites: frac @ lattice. -/
def siteCarts (s : PmgStructure) : List (ℕ × Vec3) :=
  s.sites.map (fun p => (p.1, vecMulM p.2 s.lattice))

def fractQ (q : ℚ) : ℚ := q - ⌊q⌋

def wrapV (v : Vec3) : Vec3 := ⟨fractQ v.x, fractQ v.y, fractQ v.z⟩

/-- Modelled from the spec: the excluded geometry collaborator
(pymatgen Structure.make_supercell) for a diagonal integer expansion
matrix diag(n1,n2,n3), the only shape the claims exercise. Per the spec it
applies the integer expansion matrix to the lattice vectors and replicates
sites; pymatgen generates, for each original site in order, its images
under the lattice translations taken in lexicographic order starting at
(0,0,0), and wraps every fractional coordinate into [0,1) (the spec: this
step forces the origin convention back). An identity argument (1,1,1)
therefore only wraps the sites into the unit cell. -/
def make_supercell (s : PmgStructure) (n1 n2 n3 : ℕ) : PmgStructure :=
  let latt := matMulM (diagM n1 n2 n3) s.lattice
  let ts : List (ℕ × ℕ × ℕ) :=
    (List.range n1).flatMap (fun i =>
      (List.range n2).flatMap (fun j =>
        (List.range n3).map (fun k => (i, j, k))))
  let sites := s.sites.flatMap (fun p =>
    ts.map (fun t =>
      (p.1, wrapV ⟨(p.2.x + t.1) / n1, (p.2.y + t.2.1) / n2, (p.2.z + t.2.2) / n3⟩)))
  ⟨latt, s.ndimen, sites⟩

/-- First nd components of v, the rest zeroed: models the numpy slice
coords[i, 0:ndimen] on the receiving side of the in-place subtraction. -/
def restrictV (nd : ℕ) (v : Vec3) : Vec3 :=
  ⟨if 1 ≤ nd then v.x else 0, if 2 ≤ nd then v.y else 0, if 3 ≤ nd then v.z else 0⟩

def rowsOf (m : Mat3) : List Vec3 := [m.r0, m.r1, m.r2]

/-- The total origin shift applied by the loop
for j in range(ndimen): coords[i, 0:ndimen] -= 0.5 * scel_mx[j, 0:ndimen],
namely the restriction to the first nd components of half the sum of the
first nd lattice rows. -/
def originShift (m : Mat3) (nd : ℕ) : Vec3 :=
  restrictV nd (vsmul 0.5 (((rowsOf m).take nd).foldr vadd ⟨0, 0, 0⟩))

/-- Subtract the shift from the first n sites only, leaving the rest
unchanged: the loop for i in range(natom) over the coordinate array. -/
def shiftFirst (n : ℕ) (shift : Vec3) (l : List (ℕ × Vec3)) : List (ℕ × Vec3) :=
  match n, l with
  | 0, l => l
  | _ + 1, [] => []
  | n + 1, p :: t => (p.1, vsub p.2 shift) :: shiftFirst n shift t

/-- Build a Structure from cartesian coordinates (coords_are_cartesian=True):
pymatgen converts to fractional coordinates without wrapping. -/
def structureFromCart (latt : Mat3) (nd : ℕ) (carts : List (ℕ × Vec3)) : PmgStructure :=
  ⟨latt, nd, carts.map (fun p => (p.1, vecMulM p.2 (inv3 latt)))⟩

/-- get_scel of CRYSTALpytools/geometry.py, for the diagonal expansion
matrices supported by the make_supercell model. Note the source captures
natom = struc.num_sites BEFORE make_supercell, so the origin-shift loop
touches only the first (primitive-cell) natom sites of the expanded cell. -/
def get_scel (s : PmgStructure) (n1 n2 n3 : ℕ) : PmgStructure :=
  let nd := s.ndimen
  let natom := s.sites.length
  let s1 := make_supercell s n1 n2 n3
  let scelmx := s1.lattice
  let shifted := shiftFirst natom (originShift scelmx nd) (siteCarts s1)
  structureFromCart scelmx nd shifted

/-- Variant of get_scel that reads natom after the expansion, so the origin
shift is applied to every site of the supercell (the behaviour the get_scel
docstring describes). Used to check the spec round-trip property against
the repaired code. -/
def get_scel_fullShift (s : PmgStructure) (n1 n2 n3 : ℕ) : PmgStructure :=
  let nd := s.ndimen
  let s1 := make_supercell s n1 n2 n3
  let natom := s1.sites.length
  let scelmx := s1.lattice
  let shifted := shiftFirst natom (originShift scelmx nd) (siteCarts s1)
  structureFromCart scelmx nd shifted

/-- Round half to even (the numpy.round tie-breaking rule). -/
def roundHalfEven (q : ℚ) : ℤ :=
  let f := ⌊q⌋
  let r := q - f
  if r < 1 / 2 then f
  else if 1 / 2 < r then f + 1
  else if f % 2 = 0 then f else f + 1

/-- numpy.round(x, 12): round to 12 decimal places. -/
def round12 (q : ℚ) : ℚ := (roundHalfEven (q * 10 ^ 12) : ℚ) / 10 ^ 12

def round12v (v : Vec3) : Vec3 := ⟨round12 v.x, round12 v.y, round12 v.z⟩

/-- Component j of a coordinate (0-, 1-, 2- indexed; out of range gives 0). -/
def compQ (v : Vec3) : ℕ → ℚ
  | 0 => v.x
  | 1 => v.y
  | 2 => v.z
  | _ => 0

/-- The first nd components of a coordinate, the numpy slice coord[0:nd]
(nd is at most 3 in the source). -/
def firstComps (nd : ℕ) (v : Vec3) : List ℚ := [v.x, v.y, v.z].take nd

/-- np.any(pred(coord[0:nd])): does pred hold of some of the first nd
components? -/
def anyFirst (nd : ℕ) (p : ℚ → Bool) (v : Vec3) : Bool := (firstComps nd v).any p

/-- The keep test of get_pcel: a site survives unless some periodic
component exceeds 0.5 or is at most -0.5 (the source skips the site when
np.any(coord[0:ndimen] > 0.5) or np.any(coord[0:ndimen] <= -0.5)). -/
def pcelKeep (nd : ℕ) (c : Vec3) : Bool :=
  !(anyFirst nd (fun q => decide ((0.5 : ℚ) < q)) c
    || anyFirst nd (fun q => decide (q ≤ -(0.5 : ℚ))) c)

/-- The candidate sites of get_pcel just before the containment filter:
wrap into the supercell (make_supercell with the identity), shift all
cartesian coordinates by minus half the sum of the periodic lattice rows,
convert to fractional coordinates of the primitive lattice
pcel_mx = shrink_mx @ scel_mx, and round to 12 decimal places.
(natom = struc.num_sites is read before the identity make_supercell, which
preserves the site count, so here the shift loop covers every site.) -/
def pcelCandidates (s : PmgStructure) (m : Mat3) : List (ℕ × Vec3) :=
  let nd := s.ndimen
  let natom := s.sites.length
  let s1 := make_supercell s 1 1 1
  let scelmx := s1.lattice
  let shifted := shiftFirst natom (originShift scelmx nd) (siteCarts s1)
  let pcelmx := matMulM (inv3 m) scelmx
  shifted.map (fun p => (p.1, round12v (vecMulM p.2 (inv3 pcelmx))))

/-- get_pcel of CRYSTALpytools/geometry.py: keep the candidate sites that
pass the containment test; the primitive lattice is shrink_mx @ scel_mx and
the kept (rounded) fractional coordinates are stored. -/
def get_pcel (s : PmgStructure) (m : Mat3) : PmgStructure :=
  ⟨matMulM (inv3 m) (make_supercell s 1 1 1).lattice, s.ndimen,
    (pcelCandidates s m).filter (fun p => pcelKeep s.ndimen p.2)⟩

/-- The simple cubic single-atom primitive cell of claim C3: unit lattice,
fully periodic, one atom at fractional (0,0,0). -/
def cubicP : PmgStructure := ⟨diagM 1 1 1, 3, [(1, ⟨0, 0, 0⟩)]⟩

def smx222 : Mat3 := diagM 2 2 2

/-- The coordinate test of claim C8, stated as the spec words it: every
coordinate along a periodic dimension lies in the half-open interval
(-0.5, 0.5]. -/
def inHalfOpenCell (nd : ℕ) (c : Vec3) : Prop :=
  ∀ j, j < nd → j < 3 → (-(0.5 : ℚ) < compQ c j ∧ compQ c j ≤ 0.5)

lemma pcelKeep_iff (nd : ℕ) (c : Vec3) :
    pcelKeep nd c = true ↔ inHalfOpenCell nd c := by
  obtain h | h | h | ⟨m, rfl⟩ : nd = 0 ∨ nd = 1 ∨ nd = 2 ∨ ∃ m, nd = m + 3 := by
    rcases nd with _ | _ | _ | k
    · exact Or.inl rfl
    · exact Or.inr (Or.inl rfl)
    · exact Or.inr (Or.inr (Or.inl rfl))
    · exact Or.inr (Or.inr (Or.inr ⟨k, rfl⟩))
  · subst h; simp [pcelKeep, anyFirst, firstComps, inHalfOpenCell]
  · subst h
    simp [pcelKeep, anyFirst, firstComps, inHalfOpenCell, not_or]
    constructor
    · rintro ⟨h1, h2⟩
      exact ⟨h2, h1⟩
    · rintro ⟨h1, h2⟩
      exact ⟨h2, h1⟩
  · subst h
    simp [pcelKeep, anyFirst, firstComps, inHalfOpenCell, not_or]
    constructor
    · rintro ⟨⟨hx1, hy1⟩, hx2, hy2⟩ j hj _
      rcases j with _ | _ | j
      · exact ⟨hx2, hx1⟩
      · exact ⟨hy2, hy1⟩
      · omega
    · intro h
      obtain ⟨hx1, hx2⟩ := h 0 (by omega) (by omega)
      obtain ⟨hy1, hy2⟩ := h 1 (by omega) (by omega)
      exact ⟨⟨hx2, hy2⟩, hx1, hy1⟩
  · simp [pcelKeep, anyFirst, firstComps, inHalfOpenCell, not_or]
    constructor
    · rintro ⟨⟨hx1, hy1, hz1⟩, hx2, hy2, hz2⟩ j hj h3
      rcases j with _ | _ | _ | j
      · exact ⟨hx2, hx1⟩
      · exact ⟨hy2, hy1⟩
      · exact ⟨hz2, hz1⟩
      · omega
    · intro h
      obtain ⟨hx1, hx2⟩ := h 0 (by omega) (by omega)
      obtain ⟨hy1, hy2⟩ := h 1 (by omega) (by omega)
      obtain ⟨hz1, hz2⟩ := h 2 (by omega) (by omega)
      exact ⟨⟨hx2, hy2, hz2⟩, hx1, hy1, hz1⟩

/-- C8: in get_pcel, a site is kept if and only if, after its primitive-cell
fractional coordinates are rounded to 12 decimal places (pcelCandidates
produces exactly those rounded coordinates), every coordinate along a
periodic dimension lies in the half-open interval (-0.5, 0.5]; sites with
any periodic-dimension coordinate above 0.5 or at most -0.5 are discarded
as periodic images. -/
theorem get_pcel_keep_iff (s : PmgStructure) (m : Mat3) (p : ℕ × Vec3) :
    p ∈ (get_pcel s m).sites ↔ p ∈ pcelCandidates s m ∧ inHalfOpenCell s.ndimen p.2 := by
  show p ∈ (pcelCandidates s m).filter (fun p => pcelKeep s.ndimen p.2) ↔ _
  rw [List.mem_filter, pcelKeep_iff]

lemma fract_half : Int.fract ((1 : ℚ) / 2) = 1 / 2 := by
  rw [← Int.self_sub_floor]
  norm_num

lemma fract_neg_half : Int.fract (-(1 : ℚ) / 2) = 1 / 2 := by
  rw [← Int.self_sub_floor]
  norm_num

lemma fract_neg_e12 : Int.fract (-1000000000000 : ℚ) = 0 := by
  rw [← Int.self_sub_floor]
  norm_num

/-- The supercell the source get_scel actually produces from cubicP with
expansion diag(2,2,2): only the first atom received the origin shift. -/
def scel8 : PmgStructure := ⟨diagM 2 2 2, 3,
  [(1, ⟨-1/2, -1/2, -1/2⟩), (1, ⟨0, 0, 1/2⟩), (1, ⟨0, 1/2, 0⟩), (1, ⟨0, 1/2, 1/2⟩),
   (1, ⟨1/2, 0, 0⟩), (1, ⟨1/2, 0, 1/2⟩), (1, ⟨1/2, 1/2, 0⟩), (1, ⟨1/2, 1/2, 1/2⟩)]⟩

set_option maxRecDepth 4000 in
set_option maxHeartbeats 1600000 in
lemma scel_eval : get_scel cubicP 2 2 2 = scel8 := by
  norm_num [get_scel, cubicP, scel8, make_supercell, diagM, matMulM,
    vecMulM, dotV, colX, colY, colZ, siteCarts, structureFromCart, inv3, det3,
    shiftFirst, originShift, restrictV, rowsOf, vsmul, vadd, vsub, wrapV, fractQ,
    fract_half, fract_neg_half, List.range_succ]

set_option maxRecDepth 4000 in
set_option maxHeartbeats 1600000 in
lemma cand_eval : pcelCandidates scel8 smx222 =
    [(1, ⟨0, 0, 0⟩), (1, ⟨-1, -1, 0⟩), (1, ⟨-1, 0, -1⟩), (1, ⟨-1, 0, 0⟩),
     (1, ⟨0, -1, -1⟩), (1, ⟨0, -1, 0⟩), (1, ⟨0, 0, -1⟩), (1, ⟨0, 0, 0⟩)] := by
  norm_num [pcelCandidates, scel8, smx222, make_supercell, diagM, matMulM,
    vecMulM, dotV, colX, colY, colZ, siteCarts, structureFromCart, inv3, det3,
    shiftFirst, originShift, restrictV, rowsOf, vsmul, vadd, vsub, wrapV, fractQ,
    round12v, round12, roundHalfEven,
    fract_half, fract_neg_half, fract_neg_e12, List.range_succ]

lemma pcel_eval : (get_pcel scel8 smx222).sites = [(1, ⟨0, 0, 0⟩), (1, ⟨0, 0, 0⟩)] := by
  show ((pcelCandidates scel8 smx222).filter (fun p => pcelKeep scel8.ndimen p.2)) = _
  rw [cand_eval]
  norm_num [pcelKeep, anyFirst, firstComps, scel8, List.filter]

/-- C3: evaluating the source pipeline on the simple cubic single-atom cell
with M = diag(2,2,2): the primitive cell recovered by get_pcel after
get_scel has TWO coincident sites at the origin, not the single site of P.
get_scel reads natom = struc.num_sites before the expansion, so only the
first of the eight supercell atoms is origin-shifted; after wrapping, that
atom lands on top of the (1,1,1) corner atom and both survive the
containment filter, so the round trip does not reproduce P. -/
theorem roundtrip_code_two_sites :
    (get_pcel (get_scel cubicP 2 2 2) smx222).sites
        = [(1, ⟨0, 0, 0⟩), (1, ⟨0, 0, 0⟩)]
      ∧ cubicP.sites.length = 1
      ∧ (get_pcel (get_scel cubicP 2 2 2) smx222).sites.length = 2 := by
  rw [scel_eval, pcel_eval]
  exact ⟨rfl, rfl, rfl⟩

def scelF8 : PmgStructure := ⟨diagM 2 2 2, 3,
  [(1, ⟨-1/2, -1/2, -1/2⟩), (1, ⟨-1/2, -1/2, 0⟩), (1, ⟨-1/2, 0, -1/2⟩), (1, ⟨-1/2, 0, 0⟩),
   (1, ⟨0, -1/2, -1/2⟩), (1, ⟨0, -1/2, 0⟩), (1, ⟨0, 0, -1/2⟩), (1, ⟨0, 0, 0⟩)]⟩

set_option maxRecDepth 4000 in
set_option maxHeartbeats 1600000 in
lemma scelF_eval : get_scel_fullShift cubicP 2 2 2 = scelF8 := by
  norm_num [get_scel_fullShift, cubicP, scelF8, make_supercell, diagM, matMulM,
    vecMulM, dotV, colX, colY, colZ, siteCarts, structureFromCart, inv3, det3,
    shiftFirst, originShift, restrictV, rowsOf, vsmul, vadd, vsub, wrapV, fractQ,
    fract_half, fract_neg_half, List.range_succ]

set_option maxRecDepth 4000 in
set_option maxHeartbeats 1600000 in
lemma candF_eval : pcelCandidates scelF8 smx222 =
    [(1, ⟨0, 0, 0⟩), (1, ⟨0, 0, -1⟩), (1, ⟨0, -1, 0⟩), (1, ⟨0, -1, -1⟩),
     (1, ⟨-1, 0, 0⟩), (1, ⟨-1, 0, -1⟩), (1, ⟨-1, -1, 0⟩), (1, ⟨-1, -1, -1⟩)] := by
  norm_num [pcelCandidates, scelF8, smx222, make_supercell, diagM, matMulM,
    vecMulM, dotV, colX, colY, colZ, siteCarts, structureFromCart, inv3, det3,
    shiftFirst, originShift, restrictV, rowsOf, vsmul, vadd, vsub, wrapV, fractQ,
    round12v, round12, roundHalfEven,
    fract_half, fract_neg_half, fract_neg_e12, List.range_succ]

/-- When the origin shift of get_scel covers every atom of the expanded
cell (natom read after make_supercell, as the get_scel docstring intends),
the round trip of claim C3 does hold: the recovered primitive cell is
exactly the single site of P at fractional (0,0,0). -/
theorem roundtrip_fullShift_ok :
    (get_pcel (get_scel_fullShift cubicP 2 2 2) smx222).sites = cubicP.sites := by
  rw [scelF_eval]
  show ((pcelCandidates scelF8 smx222).filter (fun p => pcelKeep scelF8.ndimen p.2)) = _
  rw [candF_eval]
  norm_num [pcelKeep, anyFirst, firstComps, scelF8, cubicP, List.filter]

/-
Part II: thermodynamics.py. IEEE floats are idealized as real numbers (in
particular there is no NaN, so the isnan part of the mode-exclusion guard
of phonon_sumup is vacuous in the model). The attribute caching of
zp_energy, U_vib, entropy and C_v is value-transparent (a cached value
always equals the recomputed one), so the methods are modelled as pure
functions returning Option (None models the print-and-return-None error
path for ncalc > 1).
-/

/-- Class Mode of thermodynamics.py. The constructor stores
frequency * 2 * pi, so the frequency field holds ANGULAR frequencies in
rad/ps (see mkMode); ncalc = len(frequency) is the derived field below.
The eigenvector field is carried by the source but unused in every
formula, and is omitted. -/
structure Mode where
  rank : ℕ
  frequency : List ℝ
  volume : List ℝ

/-- Mode.__init__(rank, frequency, volume): multiplies the input
frequencies (ordinary frequencies in THz) by 2 * pi. -/
noncomputable def mkMode (rank : ℕ) (frequency volume : List ℝ) : Mode :=
  ⟨rank, frequency.map (fun f => f * 2 * Real.pi), volume⟩

/-- self.ncalc = len(frequency). -/
def Mode.ncalc (m : Mode) : ℕ := m.frequency.length

/-- self.frequency[0], the single stored angular frequency (0 when the
list is empty: ncalc = 0 raises IndexError in Python and is outside every
claim, which all assume one calculation sample). -/
noncomputable def Mode.freq0 (m : Mode) : ℝ := m.frequency.headI

/-- hbar_freq = self.frequency[0] * 6.022141 * 6.626070E-2 / 2 / np.pi,
recomputed identically inside each of the four formula methods. -/
noncomputable def Mode.hbar_freq (m : Mode) : ℝ :=
  m.freq0 * 6.022141 * 6.626070e-2 / 2 / Real.pi

/-- The temperature-independent factor of
kb_t = 1.380649E-3 * 6.022141 * temperature. -/
noncomputable def kbConst : ℝ := 1.380649e-3 * 6.022141

/-- kb_t as recomputed inside each method. -/
noncomputable def kb_t (T : ℝ) : ℝ := kbConst * T

/-- The value Mode.get_zp_energy computes: 0.5 * hbar_freq. -/
noncomputable def Mode.zp_val (m : Mode) : ℝ := 0.5 * m.hbar_freq

/-- Mode.get_zp_energy: the error path (ncalc > 1) prints and returns
None; otherwise the zero-point energy in kJ/mol. -/
noncomputable def Mode.get_zp_energy (m : Mode) : Option ℝ :=
  if 1 < m.ncalc then none else some m.zp_val

/-- The value Mode.get_U_vib computes: the zero-point energy at
temperature == 0 (the explicit branch), otherwise
zp_energy + hbar_freq / (exp(hbar_freq / kb_t) - 1). -/
noncomputable def Mode.U_vib_val (m : Mode) (T : ℝ) : ℝ :=
  if T = 0 then m.zp_val
  else m.zp_val + m.hbar_freq / (Real.exp (m.hbar_freq / kb_t T) - 1)

noncomputable def Mode.get_U_vib (m : Mode) (T : ℝ) : Option ℝ :=
  if 1 < m.ncalc then none else some (m.U_vib_val T)

/-- The value Mode.get_entropy computes: 0 at temperature == 0, otherwise
entS / temperature * 1000 with
entS = kb_t * (hbar_freq / kb_t / (expon - 1) - log(1 - 1 / expon)). -/
noncomputable def Mode.entropy_val (m : Mode) (T : ℝ) : ℝ :=
  if T = 0 then 0
  else kb_t T * (m.hbar_freq / kb_t T / (Real.exp (m.hbar_freq / kb_t T) - 1)
      - Real.log (1 - 1 / Real.exp (m.hbar_freq / kb_t T))) / T * 1000

noncomputable def Mode.get_entropy (m : Mode) (T : ℝ) : Option ℝ :=
  if 1 < m.ncalc then none else some (m.entropy_val T)

/-- The value Mode.get_C_v computes: 0 at temperature == 0, otherwise
hbar_freq^2 / kb_t / temperature * expon / (expon - 1)^2 * 1000. -/
noncomputable def Mode.C_v_val (m : Mode) (T : ℝ) : ℝ :=
  if T = 0 then 0
  else m.hbar_freq ^ 2 / kb_t T / T * Real.exp (m.hbar_freq / kb_t T)
      / (Real.exp (m.hbar_freq / kb_t T) - 1) ^ 2 * 1000

noncomputable def Mode.get_C_v (m : Mode) (T : ℝ) : Option ℝ :=
  if 1 < m.ncalc then none else some (m.C_v_val T)

/-- One q-point of Harmonic.phonon_sumup with temperature = None: the sum
of zero-point energies over the modes whose stored angular frequency
exceeds the 1e-5 threshold (the mode is skipped when the frequency is NaN
or at most 1e-5; NaN does not exist over the reals). For the
single-calculation modes that from_file builds, the numpy truthiness test
on the one-element frequency array is exactly the test on frequency[0],
and get_zp_energy returns the value (never None). -/
noncomputable def qpoint_zp (q : List Mode) : ℝ :=
  (q.map (fun m => if 1e-5 < m.freq0 then m.zp_val else 0)).sum

/-- One q-point of the U_vib accumulation of phonon_sumup at temperature T,
with the same mode-exclusion guard. -/
noncomputable def qpoint_U_vib (q : List Mode) (T : ℝ) : ℝ :=
  (q.map (fun m => if 1e-5 < m.freq0 then m.U_vib_val T else 0)).sum

/-- One q-point of the entropy accumulation of phonon_sumup at T. -/
noncomputable def qpoint_entropy (q : List Mode) (T : ℝ) : ℝ :=
  (q.map (fun m => if 1e-5 < m.freq0 then m.entropy_val T else 0)).sum

/-- One q-point of the C_v accumulation of phonon_sumup at T. -/
noncomputable def qpoint_C_v (q : List Mode) (T : ℝ) : ℝ :=
  (q.map (fun m => if 1e-5 < m.freq0 then m.C_v_val T else 0)).sum

/-- Harmonic.phonon_sumup with temperature = None: one zero-point sum per
q-point. -/
noncomputable def phonon_sumup_zp (modes : List (List Mode)) : List ℝ :=
  modes.map qpoint_zp

/-- The Harmonic object as from_file populates it: the inherited parsed
attributes the thermodynamics step reads (edft already reduced to its
single element), plus the grids and the per-q-point mode lists. -/
structure Harmonic where
  edft : ℝ
  volume : ℝ
  temperature : List ℝ
  pressure : List ℝ
  mode : List (List Mode)
  nqpoint : ℕ
  qpoint : List (ℝ × ℝ × ℝ)

/-- One entry of helm_t = -entropy_t * T + U_vib_t + self.edft (the numpy
vector operation of thermodynamics, written per q-point). Note the
entropy term is NOT divided by 1000 in the source. -/
noncomputable def helm_entry (edft : ℝ) (q : List Mode) (T : ℝ) : ℝ :=
  -(qpoint_entropy q T) * T + qpoint_U_vib q T + edft

/-- One entry of gibbs_tp = p * self.volume * 0.602214 + helm_t. -/
noncomputable def gibbs_entry (edft volume : ℝ) (q : List Mode) (T p : ℝ) : ℝ :=
  p * volume * 0.602214 + helm_entry edft q T

/-- The attributes Harmonic.thermodynamics assigns. -/
structure ThermoOut where
  zp_energy : List ℝ
  U_vib : List (List ℝ)
  entropy : List (List ℝ)
  C_v : List (List ℝ)
  helmholtz : List (List ℝ)
  gibbs : List (List (List ℝ))
  nqpoint : ℕ
  qpoint : List (ℝ × ℝ × ℝ)

/-- Harmonic.thermodynamics. The source accumulates temperature-major
lists and transposes (np.transpose for U_vib, entropy, C_v, helmholtz and
axes (2,0,1) for gibbs); the tensors are written here directly in the
q-point-major index order the attributes have after that transpose
([q][t], and [q][t][p] for gibbs), entry for entry the same reals. With
sumphonon = True every tensor EXCEPT zp_energy is summed over the q-point
axis (np.sum(..., axis=0)) and wrapped as a single q-point, nqpoint is
forced to 1 and qpoint to the origin; self.zp_energy = self.phonon_sumup()
is assigned before the branch and left per-q-point. -/
noncomputable def Harmonic.thermodynamics (h : Harmonic) (sumphonon : Bool) : ThermoOut :=
  if sumphonon then
    { zp_energy := phonon_sumup_zp h.mode,
      U_vib := [h.temperature.map (fun T => (h.mode.map (fun q => qpoint_U_vib q T)).sum)],
      entropy := [h.temperature.map (fun T => (h.mode.map (fun q => qpoint_entropy q T)).sum)],
      C_v := [h.temperature.map (fun T => (h.mode.map (fun q => qpoint_C_v q T)).sum)],
      helmholtz := [h.temperature.map (fun T => (h.mode.map (fun q => helm_entry h.edft q T)).sum)],
      gibbs := [h.temperature.map (fun T => h.pressure.map (fun p =>
        (h.mode.map (fun q => gibbs_entry h.edft h.volume q T p)).sum))],
      nqpoint := 1,
      qpoint := [(0, 0, 0)] }
  else
    { zp_energy := phonon_sumup_zp h.mode,
      U_vib := h.mode.map (fun q => h.temperature.map (fun T => qpoint_U_vib q T)),
      entropy := h.mode.map (fun q => h.temperature.map (fun T => qpoint_entropy q T)),
      C_v := h.mode.map (fun q => h.temperature.map (fun T => qpoint_C_v q T)),
      helmholtz := h.mode.map (fun q => h.temperature.map (fun T => helm_entry h.edft q T)),
      gibbs := h.mode.map (fun q => h.temperature.map (fun T =>
        h.pressure.map (fun p => gibbs_entry h.edft h.volume q T p))),
      nqpoint := h.nqpoint,
      qpoint := h.qpoint }

/-- The parsed arrays that read_cry_output and the inherited helpers give
Harmonic.from_file (the output-file parsing is an excluded collaborator):
electronic energies edft in kJ/mol (one per electronic state), the
q-point list, the mode frequencies (THz) per q-point, and the cell volume
that generate_structure derives. -/
structure ParsedPhonon where
  edft : List ℝ
  nqpoint : ℕ
  qpoint : List (ℝ × ℝ × ℝ)
  frequency : List (List ℝ)
  volume : ℝ

/-- Harmonic.from_file after the parsing stage: if len(self.edft) != 1 it
returns the error string, before the mode lists are built; otherwise
self.edft = self.edft[0] and one Mode is built per (q-point, rank) with
frequency=[freq], volume=[self.volume]. -/
noncomputable def Harmonic.from_file (p : ParsedPhonon)
    (temperature pressure : List ℝ) : Except String Harmonic :=
  if p.edft.length ≠ 1 then
    Except.error "ERROR: Only a single frequency calculation is premitted."
  else
    Except.ok
      { edft := p.edft.headI,
        volume := p.volume,
        temperature := temperature,
        pressure := pressure,
        mode := p.frequency.map (fun qf => qf.mapIdx (fun i f => mkMode (i + 1) [f] [p.volume])),
        nqpoint := p.nqpoint,
        qpoint := p.qpoint }

/-- C5: for a mode with exactly one calculation sample, the temperature-0
branches return exact values: U_vib(0) equals the zero-point energy
(and both methods answer with a value, not the ncalc error), entropy(0)
is 0 and C_v(0) is 0. -/
theorem mode_zero_temperature_branch (m : Mode) (h : m.ncalc = 1) :
    m.get_U_vib 0 = m.get_zp_energy
      ∧ m.get_U_vib 0 = some m.zp_val
      ∧ m.get_entropy 0 = some 0
      ∧ m.get_C_v 0 = some 0 := by
  have h1 : ¬ 1 < m.ncalc := by omega
  simp [Mode.get_U_vib, Mode.get_zp_energy, Mode.get_entropy, Mode.get_C_v,
    Mode.U_vib_val, Mode.entropy_val, Mode.C_v_val, h1]

/-- C5 witness: the single-sample mode of input frequency 5 THz. -/
theorem mode_zero_temperature_branch_w :
    (mkMode 1 [(5 : ℝ)] [20]).ncalc = 1
      ∧ (mkMode 1 [(5 : ℝ)] [20]).get_U_vib 0 = (mkMode 1 [(5 : ℝ)] [20]).get_zp_energy
      ∧ (mkMode 1 [(5 : ℝ)] [20]).get_entropy 0 = some 0 := by
  have h : (mkMode 1 [(5 : ℝ)] [20]).ncalc = 1 := rfl
  have h2 := mode_zero_temperature_branch (mkMode 1 [(5 : ℝ)] [20]) h
  exact ⟨h, h2.1, h2.2.2.1⟩

/-- C9: with more than one electronic-energy value, from_file returns the
error (the literal source string, the single-state restriction) and no
Harmonic object, hence no mode list or tensor, is produced. -/
theorem from_file_multi_edft_error (p : ParsedPhonon)
    (temperature pressure : List ℝ) (h : 1 < p.edft.length) :
    Harmonic.from_file p temperature pressure
      = Except.error "ERROR: Only a single frequency calculation is premitted." := by
  rw [Harmonic.from_file, if_pos (by omega)]

/-- A parsed output carrying two electronic states. -/
def parsedTwoStates : ParsedPhonon :=
  ⟨[(-100 : ℝ), -99], 1, [(0, 0, 0)], [[1]], 50⟩

/-- C9 witness. -/
theorem from_file_multi_edft_error_w :
    1 < parsedTwoStates.edft.length
      ∧ Harmonic.from_file parsedTwoStates [298.15] [0]
          = Except.error "ERROR: Only a single frequency calculation is premitted." := by
  have h : 1 < parsedTwoStates.edft.length := by simp [parsedTwoStates]
  exact ⟨h, from_file_multi_edft_error parsedTwoStates [298.15] [0] h⟩

/-- C6: in every per-q-point aggregation, a mode whose stored angular
frequency is at most 1e-5 contributes nothing to the zero-point,
U_vib, entropy and C_v sums, and every mode above the threshold
contributes exactly its own term (NaN does not arise over the reals); in
particular an input frequency of 1e-6 THz (stored angular frequency
2*pi*1e-6) falls below the threshold and 1e-4 THz falls above it. -/
theorem qpoint_threshold_exclusion (q : List Mode) (T : ℝ) :
    (∀ m : Mode, m.freq0 ≤ 1e-5 →
        qpoint_zp (m :: q) = qpoint_zp q
          ∧ qpoint_U_vib (m :: q) T = qpoint_U_vib q T
          ∧ qpoint_entropy (m :: q) T = qpoint_entropy q T
          ∧ qpoint_C_v (m :: q) T = qpoint_C_v q T)
      ∧ (∀ m : Mode, 1e-5 < m.freq0 →
        qpoint_zp (m :: q) = m.zp_val + qpoint_zp q
          ∧ qpoint_U_vib (m :: q) T = m.U_vib_val T + qpoint_U_vib q T
          ∧ qpoint_entropy (m :: q) T = m.entropy_val T + qpoint_entropy q T
          ∧ qpoint_C_v (m :: q) T = m.C_v_val T + qpoint_C_v q T)
      ∧ (mkMode 1 [(1e-6 : ℝ)] [50]).freq0 ≤ 1e-5
      ∧ 1e-5 < (mkMode 1 [(1e-4 : ℝ)] [50]).freq0 := by
  refine ⟨?_, ?_, ?_, ?_⟩
  · intro m hm
    have hx : ¬ (1e-5 : ℝ) < m.freq0 := not_lt.mpr hm
    constructor
    · simp [qpoint_zp, if_neg hx]
    constructor
    · simp [qpoint_U_vib, if_neg hx]
    constructor
    · simp [qpoint_entropy, if_neg hx]
    · simp [qpoint_C_v, if_neg hx]
  · intro m hm
    constructor
    · simp [qpoint_zp, if_pos hm]
    constructor
    · simp [qpoint_U_vib, if_pos hm]
    constructor
    · simp [qpoint_entropy, if_pos hm]
    · simp [qpoint_C_v, if_pos hm]
  · have hf : (mkMode 1 [(1e-6 : ℝ)] [50]).freq0 = 1e-6 * 2 * Real.pi := by
      simp [mkMode, Mode.freq0]
    rw [hf]
    nlinarith [Real.pi_le_four]
  · have hf : (mkMode 1 [(1e-4 : ℝ)] [50]).freq0 = 1e-4 * 2 * Real.pi := by
      simp [mkMode, Mode.freq0]
    rw [hf]
    nlinarith [Real.pi_gt_three]

/-- C6 witness: the two concrete modes of the claim in one-mode q-points. -/
theorem qpoint_threshold_exclusion_w :
    qpoint_zp [mkMode 1 [(1e-6 : ℝ)] [50]] = qpoint_zp []
      ∧ qpoint_zp [mkMode 1 [(1e-4 : ℝ)] [50]]
          = (mkMode 1 [(1e-4 : ℝ)] [50]).zp_val + qpoint_zp [] := by
  have h := qpoint_threshold_exclusion [] 1
  exact ⟨(h.1 _ h.2.2.1).1, (h.2.1 _ h.2.2.2).1⟩

/-- getD of a mapped list at an in-range index. -/
lemma getD_map {α β : Type} (l : List α) (f : α → β) (d : β) (i : ℕ)
    (hi : i < l.length) : (l.map f).getD i d = f l[i] := by
  rw [List.getD_eq_getElem _ _ (by simpa using hi), List.getElem_map]

lemma sum_map_add_const {α : Type} (l : List α) (f : α → ℝ) (c : ℝ) :
    (l.map (fun a => f a + c)).sum = (l.map f).sum + l.length * c := by
  induction l with
  | nil => simp
  | cons a t ih =>
    simp only [List.map_cons, List.sum_cons, ih, List.length_cons]
    push_cast
    ring

/-- C7: in the per-q-point tensors of thermodynamics, every Gibbs entry
equals P * volume * 0.602214 + the Helmholtz entry of the same q-point and
temperature, and at P = 0 the Gibbs entry equals the Helmholtz entry
exactly. -/
theorem gibbs_from_helmholtz (h : Harmonic) (iq it ip : ℕ)
    (hq : iq < h.mode.length) (ht : it < h.temperature.length)
    (hp : ip < h.pressure.length) :
    ((((h.thermodynamics false).gibbs.getD iq []).getD it []).getD ip 0
        = h.pressure.getD ip 0 * h.volume * 0.602214
          + ((h.thermodynamics false).helmholtz.getD iq []).getD it 0)
      ∧ (h.pressure.getD ip 0 = 0 →
        (((h.thermodynamics false).gibbs.getD iq []).getD it []).getD ip 0
          = ((h.thermodynamics false).helmholtz.getD iq []).getD it 0) := by
  have hg0 : (h.thermodynamics false).gibbs
      = h.mode.map (fun q => h.temperature.map (fun T =>
          h.pressure.map (fun p => gibbs_entry h.edft h.volume q T p))) := rfl
  have hh0 : (h.thermodynamics false).helmholtz
      = h.mode.map (fun q => h.temperature.map (fun T => helm_entry h.edft q T)) := rfl
  have hgibbs : (((h.thermodynamics false).gibbs.getD iq []).getD it []).getD ip 0
      = gibbs_entry h.edft h.volume h.mode[iq] h.temperature[it] h.pressure[ip] := by
    rw [hg0, getD_map _ _ _ _ hq, getD_map _ _ _ _ ht, getD_map _ _ _ _ hp]
  have hhelm : ((h.thermodynamics false).helmholtz.getD iq []).getD it 0
      = helm_entry h.edft h.mode[iq] h.temperature[it] := by
    rw [hh0, getD_map _ _ _ _ hq, getD_map _ _ _ _ ht]
  have hpress : h.pressure.getD ip 0 = h.pressure[ip] := List.getD_eq_getElem _ _ hp
  constructor
  · rw [hgibbs, hhelm, hpress]
    rfl
  · intro h0
    rw [hgibbs, hhelm]
    rw [hpress] at h0
    show h.pressure[ip] * h.volume * 0.602214 + helm_entry h.edft h.mode[iq] h.temperature[it] = _
    rw [h0]
    ring

/-- C4: with sumphonon = True the electronic energy edft is added into
every per-q-point Helmholtz entry before the q-point sum, so the reported
summed Helmholtz (and every Gibbs entry) contains nqpoint copies of edft;
for a single q-point this is exactly one copy. -/
theorem thermo_summed_edft_copies (h : Harmonic) (it : ℕ)
    (ht : it < h.temperature.length) :
    (((h.thermodynamics true).helmholtz.getD 0 []).getD it 0
        = (h.mode.map (fun q =>
            qpoint_U_vib q (h.temperature.getD it 0)
              - qpoint_entropy q (h.temperature.getD it 0) * h.temperature.getD it 0)).sum
          + h.mode.length * h.edft)
      ∧ (∀ ip, ip < h.pressure.length →
          (((h.thermodynamics true).gibbs.getD 0 []).getD it []).getD ip 0
            = (h.mode.map (fun q =>
                h.pressure.getD ip 0 * h.volume * 0.602214
                  + (qpoint_U_vib q (h.temperature.getD it 0)
                      - qpoint_entropy q (h.temperature.getD it 0) * h.temperature.getD it 0))).sum
              + h.mode.length * h.edft)
      ∧ (h.mode.length = 1 →
          ((h.thermodynamics true).helmholtz.getD 0 []).getD it 0
            = (h.mode.map (fun q =>
                qpoint_U_vib q (h.temperature.getD it 0)
                  - qpoint_entropy q (h.temperature.getD it 0) * h.temperature.getD it 0)).sum
              + h.edft) := by
  have hT : h.temperature.getD it 0 = h.temperature[it] := List.getD_eq_getElem _ _ ht
  have hh0 : (h.thermodynamics true).helmholtz
      = [h.temperature.map (fun T => (h.mode.map (fun q => helm_entry h.edft q T)).sum)] := rfl
  have hg0 : (h.thermodynamics true).gibbs
      = [h.temperature.map (fun T => h.pressure.map (fun p =>
          (h.mode.map (fun q => gibbs_entry h.edft h.volume q T p)).sum))] := rfl
  have hhelm : ((h.thermodynamics true).helmholtz.getD 0 []).getD it 0
      = (h.mode.map (fun q => helm_entry h.edft q h.temperature[it])).sum := by
    rw [hh0]
    show (h.temperature.map (fun T => (h.mode.map (fun q => helm_entry h.edft q T)).sum)).getD it 0 = _
    rw [getD_map _ _ _ _ ht]
  have hsplit : (h.mode.map (fun q => helm_entry h.edft q h.temperature[it])).sum
      = (h.mode.map (fun q =>
          qpoint_U_vib q h.temperature[it]
            - qpoint_entropy q h.temperature[it] * h.temperature[it])).sum
        + h.mode.length * h.edft := by
    rw [show (fun q => helm_entry h.edft q h.temperature[it])
        = fun q => (qpoint_U_vib q h.temperature[it]
            - qpoint_entropy q h.temperature[it] * h.temperature[it]) + h.edft from
      funext fun q => by rw [helm_entry]; ring]
    exact sum_map_add_const _ _ _
  refine ⟨?_, ?_, ?_⟩
  · rw [hT, hhelm, hsplit]
  · intro ip hip
    have hP : h.pressure.getD ip 0 = h.pressure[ip] := List.getD_eq_getElem _ _ hip
    have hgibbs : (((h.thermodynamics true).gibbs.getD 0 []).getD it []).getD ip 0
        = (h.mode.map (fun q => gibbs_entry h.edft h.volume q h.temperature[it] h.pressure[ip])).sum := by
      rw [hg0]
      show ((h.temperature.map (fun T => h.pressure.map (fun p =>
          (h.mode.map (fun q => gibbs_entry h.edft h.volume q T p)).sum))).getD it []).getD ip 0 = _
      rw [getD_map _ _ _ _ ht, getD_map _ _ _ _ hip]
    rw [hT, hP, hgibbs]
    rw [show (fun q => gibbs_entry h.edft h.volume q h.temperature[it] h.pressure[ip])
        = fun q => (h.pressure[ip] * h.volume * 0.602214
            + (qpoint_U_vib q h.temperature[it]
                - qpoint_entropy q h.temperature[it] * h.temperature[it])) + h.edft from
      funext fun q => by rw [gibbs_entry, helm_entry]; ring]
    exact sum_map_add_const _ _ _
  · intro h1
    rw [hT, hhelm, hsplit, h1]
    push_cast
    ring

/-- First q-point mode of the C2 failing input: one mode, 10 THz input. -/
noncomputable def modeA : Mode := mkMode 1 [10] [50]

/-- Second q-point mode of the C2 failing input: one mode, 20 THz input. -/
noncomputable def modeB : Mode := mkMode 1 [20] [50]

/-- A Harmonic object with two q-points of one mode each. -/
noncomputable def harmonicTwoQ : Harmonic :=
  ⟨-100, 50, [298.15], [0, 1], [[modeA], [modeB]], 2, [(0, 0, 0), (1/2, 0, 0)]⟩

lemma modeA_freq0 : modeA.freq0 = 10 * 2 * Real.pi := by
  simp [modeA, mkMode, Mode.freq0]

lemma modeB_freq0 : modeB.freq0 = 20 * 2 * Real.pi := by
  simp [modeB, mkMode, Mode.freq0]

lemma modeA_thr : (1e-5 : ℝ) < modeA.freq0 := by
  rw [modeA_freq0]
  nlinarith [Real.pi_gt_three]

lemma modeB_thr : (1e-5 : ℝ) < modeB.freq0 := by
  rw [modeB_freq0]
  nlinarith [Real.pi_gt_three]

/-- C2: with sumphonon = True on two q-points holding one mode each, the
zero-point-energy tensor is NOT reduced across the q-point axis: the code
leaves the per-q-point array [zp_A, zp_B] of length 2 even though the
reported q-point count is 1 (coordinate (0,0,0)) and every other tensor,
helmholtz included, has been reduced to a single entry; in particular the
zp tensor is not the singleton holding zp_A + zp_B that the claim
requires. -/
theorem thermo_summed_zp_not_reduced :
    (harmonicTwoQ.thermodynamics true).zp_energy = [modeA.zp_val, modeB.zp_val]
      ∧ (harmonicTwoQ.thermodynamics true).zp_energy.length = 2
      ∧ (harmonicTwoQ.thermodynamics true).nqpoint = 1
      ∧ (harmonicTwoQ.thermodynamics true).qpoint = [(0, 0, 0)]
      ∧ (harmonicTwoQ.thermodynamics true).helmholtz.length = 1
      ∧ (harmonicTwoQ.thermodynamics true).zp_energy ≠ [modeA.zp_val + modeB.zp_val] := by
  have hz : (harmonicTwoQ.thermodynamics true).zp_energy
      = [qpoint_zp [modeA], qpoint_zp [modeB]] := rfl
  have hA : qpoint_zp [modeA] = modeA.zp_val := by
    simp [qpoint_zp, if_pos modeA_thr]
  have hB : qpoint_zp [modeB] = modeB.zp_val := by
    simp [qpoint_zp, if_pos modeB_thr]
  refine ⟨?_, ?_, rfl, rfl, rfl, ?_⟩
  · rw [hz, hA, hB]
  · rw [hz]
    rfl
  · rw [hz, hA, hB]
    intro hcontra
    have := congrArg List.length hcontra
    simp at this

/-- C7 witness: first q-point, first temperature, both pressures of the
two-q-point object. -/
theorem gibbs_from_helmholtz_w :
    0 < harmonicTwoQ.mode.length
      ∧ ((((harmonicTwoQ.thermodynamics false).gibbs.getD 0 []).getD 0 []).getD 0 0
          = harmonicTwoQ.pressure.getD 0 0 * harmonicTwoQ.volume * 0.602214
            + ((harmonicTwoQ.thermodynamics false).helmholtz.getD 0 []).getD 0 0)
      ∧ (harmonicTwoQ.pressure.getD 0 0 = 0 →
          (((harmonicTwoQ.thermodynamics false).gibbs.getD 0 []).getD 0 []).getD 0 0
            = ((harmonicTwoQ.thermodynamics false).helmholtz.getD 0 []).getD 0 0) := by
  have hq : 0 < harmonicTwoQ.mode.length := by norm_num [harmonicTwoQ]
  have ht : 0 < harmonicTwoQ.temperature.length := by norm_num [harmonicTwoQ]
  have hp : 0 < harmonicTwoQ.pressure.length := by norm_num [harmonicTwoQ]
  have h2 := gibbs_from_helmholtz harmonicTwoQ 0 0 0 hq ht hp
  exact ⟨hq, h2.1, h2.2⟩

/-- C4 witness: the two-q-point object at its only temperature. -/
theorem thermo_summed_edft_copies_w :
    0 < harmonicTwoQ.temperature.length
      ∧ ((harmonicTwoQ.thermodynamics true).helmholtz.getD 0 []).getD 0 0
          = (harmonicTwoQ.mode.map (fun q =>
              qpoint_U_vib q (harmonicTwoQ.temperature.getD 0 0)
                - qpoint_entropy q (harmonicTwoQ.temperature.getD 0 0)
                    * harmonicTwoQ.temperature.getD 0 0)).sum
            + harmonicTwoQ.mode.length * harmonicTwoQ.edft := by
  have ht : 0 < harmonicTwoQ.temperature.length := by norm_num [harmonicTwoQ]
  exact ⟨ht, (thermo_summed_edft_copies harmonicTwoQ 0 ht).1⟩

lemma kbConst_pos : 0 < kbConst := by norm_num [kbConst]

lemma kb_t_pos {T : ℝ} (hT : 0 < T) : 0 < kb_t T := mul_pos kbConst_pos hT

lemma hbar_freq_pos (m : Mode) (hw : 0 < m.freq0) : 0 < m.hbar_freq := by
  rw [Mode.hbar_freq]
  apply div_pos (div_pos (by positivity) two_pos) Real.pi_pos

lemma exp_sub_one_pos {x : ℝ} (hx : 0 < x) : 0 < Real.exp x - 1 := by
  have h := Real.one_lt_exp_iff.mpr hx
  linarith

lemma one_sub_exp_neg_pos {x : ℝ} (hx : 0 < x) : 0 < 1 - Real.exp (-x) := by
  have h : Real.exp (-x) < 1 := Real.exp_lt_one_iff.mpr (by linarith)
  linarith

/-- The temperature-free entropy shape: for T > 0 the source entropy is
1000 * kbConst * gAux(hbar_freq / kb_t). -/
noncomputable def gAux (x : ℝ) : ℝ :=
  x / (Real.exp x - 1) - Real.log (1 - Real.exp (-x))

lemma gAux_pos {x : ℝ} (hx : 0 < x) : 0 < gAux x := by
  have h1 : 0 < x / (Real.exp x - 1) := div_pos hx (exp_sub_one_pos hx)
  have h2 : Real.log (1 - Real.exp (-x)) < 0 :=
    Real.log_neg (one_sub_exp_neg_pos hx) (by have := Real.exp_pos (-x); linarith)
  rw [gAux]
  linarith

lemma hasDerivAt_gAux {x : ℝ} (hx : 0 < x) :
    HasDerivAt gAux (-(x * Real.exp x) / (Real.exp x - 1) ^ 2) x := by
  have hne : Real.exp x - 1 ≠ 0 := ne_of_gt (exp_sub_one_pos hx)
  have hne2 : 1 - Real.exp (-x) ≠ 0 := ne_of_gt (one_sub_exp_neg_pos hx)
  have h1 : HasDerivAt (fun y => y / (Real.exp y - 1))
      ((1 * (Real.exp x - 1) - x * Real.exp x) / (Real.exp x - 1) ^ 2) x :=
    (hasDerivAt_id x).div ((Real.hasDerivAt_exp x).sub_const 1) hne
  have h2 : HasDerivAt (fun y => Real.exp (-y)) (-Real.exp (-x)) x := by
    have h := (Real.hasDerivAt_exp (-x)).comp x (hasDerivAt_neg x)
    simpa using h
  have h3 : HasDerivAt (fun y => 1 - Real.exp (-y)) (Real.exp (-x)) x := by
    simpa using h2.const_sub 1
  have h4 : HasDerivAt (fun y => Real.log (1 - Real.exp (-y)))
      (Real.exp (-x) / (1 - Real.exp (-x))) x := h3.log hne2
  have h5 := h1.sub h4
  have heq : (1 * (Real.exp x - 1) - x * Real.exp x) / (Real.exp x - 1) ^ 2
      - Real.exp (-x) / (1 - Real.exp (-x))
      = -(x * Real.exp x) / (Real.exp x - 1) ^ 2 := by
    rw [Real.exp_neg]
    have hE : Real.exp x ≠ 0 := (Real.exp_pos x).ne'
    field_simp
    ring
  rw [heq] at h5
  exact h5

lemma gAux_strictAntiOn : StrictAntiOn gAux (Set.Ioi 0) := by
  apply strictAntiOn_of_deriv_neg (convex_Ioi 0)
  · exact fun x hx => (hasDerivAt_gAux hx).continuousAt.continuousWithinAt
  · intro x hx
    rw [interior_Ioi] at hx
    rw [(hasDerivAt_gAux hx).deriv]
    apply div_neg_of_neg_of_pos
    · have := Real.exp_pos x
      have hx0 : (0:ℝ) < x := hx
      nlinarith
    · exact pow_pos (exp_sub_one_pos hx) 2

lemma entropy_val_eq (m : Mode) {T : ℝ} (hT : 0 < T) :
    m.entropy_val T = 1000 * kbConst * gAux (m.hbar_freq / kb_t T) := by
  have hT0 : T ≠ 0 := ne_of_gt hT
  rw [Mode.entropy_val, if_neg hT0, gAux, Real.exp_neg, ← one_div, kb_t]
  have hk : kbConst ≠ 0 := ne_of_gt kbConst_pos
  field_simp
  ring

lemma entropy_val_zero (m : Mode) : m.entropy_val 0 = 0 := by
  rw [Mode.entropy_val, if_pos rfl]

lemma entropy_val_pos (m : Mode) (hf : 0 < m.hbar_freq) {T : ℝ} (hT : 0 < T) :
    0 < m.entropy_val T := by
  rw [entropy_val_eq m hT]
  have hx : 0 < m.hbar_freq / kb_t T := div_pos hf (kb_t_pos hT)
  have h1000 : (0:ℝ) < 1000 := by norm_num
  exact mul_pos (mul_pos h1000 kbConst_pos) (gAux_pos hx)

lemma entropy_val_mono (m : Mode) (hf : 0 < m.hbar_freq) {T1 T2 : ℝ}
    (h0 : 0 ≤ T1) (h12 : T1 ≤ T2) : m.entropy_val T1 ≤ m.entropy_val T2 := by
  rcases eq_or_lt_of_le h0 with hT1 | hT1
  · rw [← hT1, entropy_val_zero]
    rcases eq_or_lt_of_le (h0.trans h12) with hT2 | hT2
    · rw [← hT2, entropy_val_zero]
    · exact le_of_lt (entropy_val_pos m hf hT2)
  · rcases eq_or_lt_of_le h12 with heq | hlt
    · rw [heq]
    · have hT2 : 0 < T2 := hT1.trans hlt
      rw [entropy_val_eq m hT1, entropy_val_eq m hT2]
      have hx1 : 0 < m.hbar_freq / kb_t T1 := div_pos hf (kb_t_pos hT1)
      have hx2 : 0 < m.hbar_freq / kb_t T2 := div_pos hf (kb_t_pos hT2)
      have hx21 : m.hbar_freq / kb_t T2 < m.hbar_freq / kb_t T1 := by
        apply div_lt_div_of_pos_left hf (kb_t_pos hT1)
        rw [kb_t, kb_t]
        exact mul_lt_mul_of_pos_left hlt kbConst_pos
      have hg := gAux_strictAntiOn (Set.mem_Ioi.mpr hx2) (Set.mem_Ioi.mpr hx1) hx21
      have hc : (0:ℝ) ≤ 1000 * kbConst := by
        have := kbConst_pos
        nlinarith
      exact mul_le_mul_of_nonneg_left (le_of_lt hg) hc

/-- The temperature-free heat-capacity shape: for T > 0 the source C_v is
1000 * kbConst * hAux(hbar_freq / kb_t). -/
noncomputable def hAux (x : ℝ) : ℝ := x ^ 2 * Real.exp x / (Real.exp x - 1) ^ 2

/-- Auxiliary for the sign of the hAux derivative: y*exp y - exp y + 1. -/
noncomputable def sigAux (y : ℝ) : ℝ := y * Real.exp y - Real.exp y + 1

/-- Auxiliary: y*(exp y + 1) - 2*(exp y - 1), positive for y > 0. -/
noncomputable def phiAux (y : ℝ) : ℝ := y * (Real.exp y + 1) - 2 * (Real.exp y - 1)

lemma hasDerivAt_sigAux (y : ℝ) : HasDerivAt sigAux (y * Real.exp y) y := by
  have h1 : HasDerivAt (fun t => t * Real.exp t) (1 * Real.exp y + y * Real.exp y) y :=
    (hasDerivAt_id y).mul (Real.hasDerivAt_exp y)
  have h2 := (h1.sub (Real.hasDerivAt_exp y)).add_const 1
  have heq : 1 * Real.exp y + y * Real.exp y - Real.exp y = y * Real.exp y := by ring
  rw [heq] at h2
  exact h2

lemma sigAux_pos {y : ℝ} (hy : 0 < y) : 0 < sigAux y := by
  have hmono : StrictMonoOn sigAux (Set.Ici 0) := by
    apply strictMonoOn_of_deriv_pos (convex_Ici 0)
    · exact fun t _ => (hasDerivAt_sigAux t).continuousAt.continuousWithinAt
    · intro t ht
      rw [interior_Ici] at ht
      rw [(hasDerivAt_sigAux t).deriv]
      exact mul_pos ht (Real.exp_pos t)
  have h := hmono Set.left_mem_Ici (Set.mem_Ici.mpr hy.le) hy
  have h0 : sigAux 0 = 0 := by simp [sigAux]
  rw [h0] at h
  exact h

lemma hasDerivAt_phiAux (y : ℝ) : HasDerivAt phiAux (sigAux y) y := by
  have h1 : HasDerivAt (fun t => t * (Real.exp t + 1))
      (1 * (Real.exp y + 1) + y * Real.exp y) y :=
    (hasDerivAt_id y).mul ((Real.hasDerivAt_exp y).add_const 1)
  have h2 : HasDerivAt (fun t => 2 * (Real.exp t - 1)) (2 * Real.exp y) y :=
    ((Real.hasDerivAt_exp y).sub_const 1).const_mul 2
  have h3 := h1.sub h2
  have heq : 1 * (Real.exp y + 1) + y * Real.exp y - 2 * Real.exp y = sigAux y := by
    rw [sigAux]; ring
  rw [heq] at h3
  exact h3

lemma phiAux_pos {y : ℝ} (hy : 0 < y) : 0 < phiAux y := by
  have hmono : StrictMonoOn phiAux (Set.Ici 0) := by
    apply strictMonoOn_of_deriv_pos (convex_Ici 0)
    · exact fun t _ => (hasDerivAt_phiAux t).continuousAt.continuousWithinAt
    · intro t ht
      rw [interior_Ici] at ht
      rw [(hasDerivAt_phiAux t).deriv]
      exact sigAux_pos ht
  have h := hmono Set.left_mem_Ici (Set.mem_Ici.mpr hy.le) hy
  have h0 : phiAux 0 = 0 := by simp [phiAux]
  rw [h0] at h
  exact h

lemma hasDerivAt_hAux {x : ℝ} (hx : 0 < x) :
    HasDerivAt hAux
      (((2 * x ^ 1 * Real.exp x + x ^ 2 * Real.exp x) * (Real.exp x - 1) ^ 2
          - x ^ 2 * Real.exp x * (2 * (Real.exp x - 1) ^ 1 * Real.exp x))
        / ((Real.exp x - 1) ^ 2) ^ 2) x := by
  have hne : Real.exp x - 1 ≠ 0 := ne_of_gt (exp_sub_one_pos hx)
  have hnum : HasDerivAt (fun y => y ^ 2 * Real.exp y)
      ((2 : ℕ) * x ^ 1 * Real.exp x + x ^ 2 * Real.exp x) x := by
    have := (hasDerivAt_pow 2 x).mul (Real.hasDerivAt_exp x)
    simpa using this
  have hden : HasDerivAt (fun y => (Real.exp y - 1) ^ 2)
      ((2 : ℕ) * (Real.exp x - 1) ^ 1 * Real.exp x) x :=
    ((Real.hasDerivAt_exp x).sub_const 1).pow 2
  have h := hnum.div hden (pow_ne_zero 2 hne)
  simpa using h

lemma hAux_deriv_neg {x : ℝ} (hx : 0 < x) : deriv hAux x < 0 := by
  rw [(hasDerivAt_hAux hx).deriv]
  apply div_neg_of_neg_of_pos
  · have hfact : (2 * x ^ 1 * Real.exp x + x ^ 2 * Real.exp x) * (Real.exp x - 1) ^ 2
        - x ^ 2 * Real.exp x * (2 * (Real.exp x - 1) ^ 1 * Real.exp x)
        = -(x * Real.exp x * (Real.exp x - 1) * phiAux x) := by
      rw [phiAux]; ring
    rw [hfact, neg_lt_zero]
    exact mul_pos (mul_pos (mul_pos hx (Real.exp_pos x)) (exp_sub_one_pos hx)) (phiAux_pos hx)
  · exact pow_pos (pow_pos (exp_sub_one_pos hx) 2) 2

lemma hAux_strictAntiOn : StrictAntiOn hAux (Set.Ioi 0) := by
  apply strictAntiOn_of_deriv_neg (convex_Ioi 0)
  · intro x hx
    exact (hasDerivAt_hAux hx).continuousAt.continuousWithinAt
  · intro x hx
    rw [interior_Ioi] at hx
    exact hAux_deriv_neg hx

lemma hAux_nonneg (x : ℝ) : 0 ≤ hAux x := by
  rw [hAux]
  positivity

lemma C_v_val_eq (m : Mode) (hf : 0 < m.hbar_freq) {T : ℝ} (hT : 0 < T) :
    m.C_v_val T = 1000 * kbConst * hAux (m.hbar_freq / kb_t T) := by
  have hT0 : T ≠ 0 := ne_of_gt hT
  have hne : Real.exp (m.hbar_freq / kb_t T) - 1 ≠ 0 :=
    ne_of_gt (exp_sub_one_pos (div_pos hf (kb_t_pos hT)))
  rw [Mode.C_v_val, if_neg hT0, hAux, kb_t] at *
  have hk : kbConst ≠ 0 := ne_of_gt kbConst_pos
  field_simp
  ring

lemma C_v_val_zero (m : Mode) : m.C_v_val 0 = 0 := by
  rw [Mode.C_v_val, if_pos rfl]

lemma C_v_val_mono (m : Mode) (hf : 0 < m.hbar_freq) {T1 T2 : ℝ}
    (h0 : 0 ≤ T1) (h12 : T1 ≤ T2) : m.C_v_val T1 ≤ m.C_v_val T2 := by
  rcases eq_or_lt_of_le h0 with hT1 | hT1
  · rw [← hT1, C_v_val_zero]
    rcases eq_or_lt_of_le (h0.trans h12) with hT2 | hT2
    · rw [← hT2, C_v_val_zero]
    · rw [C_v_val_eq m hf hT2]
      have := kbConst_pos
      have := hAux_nonneg (m.hbar_freq / kb_t T2)
      nlinarith
  · rcases eq_or_lt_of_le h12 with heq | hlt
    · rw [heq]
    · have hT2 : 0 < T2 := hT1.trans hlt
      rw [C_v_val_eq m hf hT1, C_v_val_eq m hf hT2]
      have hx1 : 0 < m.hbar_freq / kb_t T1 := div_pos hf (kb_t_pos hT1)
      have hx2 : 0 < m.hbar_freq / kb_t T2 := div_pos hf (kb_t_pos hT2)
      have hx21 : m.hbar_freq / kb_t T2 < m.hbar_freq / kb_t T1 := by
        apply div_lt_div_of_pos_left hf (kb_t_pos hT1)
        rw [kb_t, kb_t]
        exact mul_lt_mul_of_pos_left hlt kbConst_pos
      have hg := hAux_strictAntiOn (Set.mem_Ioi.mpr hx2) (Set.mem_Ioi.mpr hx1) hx21
      have hc : (0:ℝ) ≤ 1000 * kbConst := by
        have := kbConst_pos
        nlinarith
      exact mul_le_mul_of_nonneg_left (le_of_lt hg) hc

/-- C10: for a single-sample mode of fixed positive angular frequency,
entropy(T) and heatCapacity(T) are non-decreasing in T from 0 upwards (and
both methods return the value, not the ncalc error). -/
theorem entropy_Cv_monotone (m : Mode) (h1 : m.ncalc = 1) (hw : 0 < m.freq0) :
    ∀ T1 T2 : ℝ, 0 ≤ T1 → T1 ≤ T2 →
      m.entropy_val T1 ≤ m.entropy_val T2
        ∧ m.C_v_val T1 ≤ m.C_v_val T2
        ∧ m.get_entropy T1 = some (m.entropy_val T1)
        ∧ m.get_C_v T1 = some (m.C_v_val T1) := by
  intro T1 T2 h0 h12
  have hf : 0 < m.hbar_freq := hbar_freq_pos m hw
  have hn : ¬ 1 < m.ncalc := by omega
  refine ⟨entropy_val_mono m hf h0 h12, C_v_val_mono m hf h0 h12, ?_, ?_⟩
  · rw [Mode.get_entropy, if_neg hn]
  · rw [Mode.get_C_v, if_neg hn]

/-- C10 witness: the 10 THz single-sample mode between T = 1 and T = 2. -/
theorem entropy_Cv_monotone_w :
    0 < (mkMode 1 [(10 : ℝ)] [50]).freq0
      ∧ (mkMode 1 [(10 : ℝ)] [50]).entropy_val 1 ≤ (mkMode 1 [(10 : ℝ)] [50]).entropy_val 2
      ∧ (mkMode 1 [(10 : ℝ)] [50]).C_v_val 1 ≤ (mkMode 1 [(10 : ℝ)] [50]).C_v_val 2 := by
  have h1 : (mkMode 1 [(10 : ℝ)] [50]).ncalc = 1 := rfl
  have hw : 0 < (mkMode 1 [(10 : ℝ)] [50]).freq0 := by
    have hfr : (mkMode 1 [(10 : ℝ)] [50]).freq0 = 10 * 2 * Real.pi := by
      simp [mkMode, Mode.freq0]
    rw [hfr]
    positivity
  have h := entropy_Cv_monotone (mkMode 1 [(10 : ℝ)] [50]) h1 hw 1 2 (by norm_num) (by norm_num)
  exact ⟨hw, h.1, h.2.1⟩

/-- The Helmholtz entry as the spec words it (claim C1): A = U_vib -
T * S / 1000 + E_electronic, with the aggregated entropy S in J/(mol K)
converted to kJ/(mol K) before the T*S term is subtracted. Written from
the spec text, for comparison with the source helm_entry. -/
noncomputable def helm_spec_entry (edft : ℝ) (q : List Mode) (T : ℝ) : ℝ :=
  qpoint_U_vib q T - T * qpoint_entropy q T / 1000 + edft

/-- C1: the source Helmholtz entry is U_vib - S*T + edft with the
aggregated entropy S taken in J/(mol K) and NOT divided by 1000, so it
differs from the spec formula U_vib - T*S/1000 + edft whenever T and S are
nonzero: at the one-mode q-point of input frequency 10 THz and
T = 298.15 K the two values disagree (their difference is
(999/1000)*T*S > 0). -/
theorem helmholtz_entropy_unit_bug :
    (∀ (edft : ℝ) (q : List Mode) (T : ℝ),
        helm_entry edft q T = qpoint_U_vib q T - qpoint_entropy q T * T + edft)
      ∧ helm_entry (-100) [modeA] 298.15 ≠ helm_spec_entry (-100) [modeA] 298.15 := by
  constructor
  · intro edft q T
    rw [helm_entry]
    ring
  · have hf : 0 < modeA.hbar_freq := by
      apply hbar_freq_pos
      rw [modeA_freq0]
      positivity
    have hS : 0 < qpoint_entropy [modeA] 298.15 := by
      have hq : qpoint_entropy [modeA] 298.15 = modeA.entropy_val 298.15 := by
        simp [qpoint_entropy, if_pos modeA_thr]
      rw [hq]
      exact entropy_val_pos _ hf (by norm_num)
    intro hcontra
    have hdiff : helm_spec_entry (-100) [modeA] 298.15 - helm_entry (-100) [modeA] 298.15
        = (999 / 1000) * 298.15 * qpoint_entropy [modeA] 298.15 := by
      rw [helm_spec_entry, helm_entry]
      ring
    rw [hcontra, sub_self] at hdiff
    nlinarith
